import Mathlib

/-!
Shallow embedding of the `nbody` repository's physics engine.

The repository contains two versions of the engine:
  * `src/galaxy.rs` — the current engine (used by `src/game.rs`): bodies carry a
    pending-velocity accumulator `new_velocity` and a trace buffer; the integration
    step `update_vel_and_pos` folds over index pairs and then commits.
  * `src/main.rs` — a legacy standalone engine: velocities are mutated in place
    during the nested pair loop and a "dark matter" centering term is added.

All machine `f32` arithmetic is embedded as exact rational arithmetic `ℚ`.
Operations with no rational counterpart (`sqrt` inside `normalize`, `cbrt`,
`π`, and the process-wide random source) are passed in as explicit parameters,
so every theorem quantifies over all of their behaviours.
-/

namespace NBody

/-- 2D vector over `ℚ`, standing for `nalgebra::Vector2<f32>` (also used for
`Point2`, whose coordinate vector the source manipulates). -/
abbrev Vec := ℚ × ℚ

/-- `nalgebra` dot product of two 2D vectors. -/
def dot (u v : Vec) : ℚ := u.1 * v.1 + u.2 * v.2

/-- `nalgebra` `norm_squared`. -/
def normSq (v : Vec) : ℚ := dot v v

/-- Componentwise division of a vector by a scalar (`Vector2 / f32`). -/
def divS (v : Vec) (c : ℚ) : Vec := (v.1 / c, v.2 / c)

/-- `na::distance_squared(&p, &q)`: squared norm of the difference. -/
def distance_squared (p q : Vec) : ℚ := normSq (q - p)

/-- `vec_from_points(from, to) = to.coords - from.coords` (galaxy.rs line 71). -/
def vec_from_points (p q : Vec) : Vec := q - p

-- Star-class constants (galaxy.rs lines 10-16).
def CLASS_O : ℚ := 60
def CLASS_B : ℚ := 18
def CLASS_A : ℚ := 3.2
def CLASS_F : ℚ := 1.7
def CLASS_G : ℚ := 1.1
def CLASS_K : ℚ := 0.8
def CLASS_M : ℚ := 0.3

-- Engine constants (galaxy.rs lines 18-24).
def G : ℚ := 1000
def SUN_MIN_MASS : ℚ := CLASS_M
def SUN_MAX_MASS : ℚ := CLASS_O
def SUN_DENSITY : ℚ := 0.002
def TRACE_LEN : ℕ := 600

/-- `ActorType` (galaxy.rs lines 26-29). -/
inductive ActorType where
  | Sun
deriving DecidableEq, Repr

/-- `Actor` (galaxy.rs lines 31-43).  `trace` is the `VecDeque<Point2>` with the
front of the deque at the head of the list. -/
structure Actor where
  tag : ActorType
  id : ℕ
  pos : Vec
  trace : List Vec
  trace_cnt : ℕ
  radius : ℚ
  velocity : Vec
  new_velocity : Vec
  mass : ℚ
  color : ℕ
deriving DecidableEq, Repr

instance : Inhabited Actor :=
  ⟨⟨ActorType.Sun, 0, (0, 0), [], 0, 0, (0, 0), (0, 0), 0, 0⟩⟩

/-- `color_from_mass` (galaxy.rs lines 45-63). -/
def color_from_mass (mass : ℚ) : ℕ :=
  if mass < CLASS_M then 0xfbc886ff
  else if mass < CLASS_K then 0xffd870ff
  else if mass < CLASS_G then 0xfdf9b3ff
  else if mass < CLASS_F then 0xf9fae7ff
  else if mass < CLASS_A then 0xdadde6ff
  else if mass < CLASS_B then 0xaabfffff
  else if mass < CLASS_O then 0x9bb0ffff
  else 0xffffffff

/-- `total_momentum` (galaxy.rs lines 81-83): sum of `velocity * mass`. -/
def total_momentum (bodys : List Actor) : Vec :=
  (bodys.map (fun b => b.mass • b.velocity)).sum

/-- `total_mass` (galaxy.rs lines 85-87). -/
def total_mass (bodys : List Actor) : ℚ :=
  (bodys.map (fun b => b.mass)).sum

/-- One draw from the ambient random source, as consumed per sun by
`create_suns` (galaxy.rs lines 90-104): the `rand::random::<f32>()` used for
the mass (a value in `[0,1)`), the random `u32` id, and the two calls to
`random_vec` (whose angle/magnitude structure no claim depends on, so the
resulting vectors are taken as the draws). -/
structure SunDraw where
  massDraw : ℚ
  idDraw : ℕ
  posDraw : Vec
  velDraw : Vec
deriving DecidableEq, Repr

/-- The body built by the `new_sun` closure in `create_suns` (galaxy.rs lines
90-104).  `cbrtQ` models `f32::cbrt` and `piQ` models `std::f32::consts::PI`. -/
def mkSun (cbrtQ : ℚ → ℚ) (piQ : ℚ) (d : SunDraw) : Actor :=
  let m := SUN_MIN_MASS + d.massDraw ^ 10 * (SUN_MAX_MASS - SUN_MIN_MASS)
  { tag := ActorType.Sun
    id := d.idDraw
    pos := (0, 0) + d.posDraw
    trace := []
    trace_cnt := 0
    velocity := d.velDraw
    new_velocity := (0, 0)
    mass := m
    radius := cbrtQ (m / SUN_DENSITY * 0.75 / piQ)
    color := color_from_mass m }

/-- `create_suns` (galaxy.rs lines 89-113): generate `num` suns from the draws,
then subtract `total_momentum / total_mass` from every velocity. -/
def create_suns (num : ℕ) (draws : ℕ → SunDraw) (cbrtQ : ℚ → ℚ) (piQ : ℚ) :
    List Actor :=
  let suns := (List.range num).map (fun k => mkSun cbrtQ piQ (draws k))
  let total_velocity := divS (total_momentum suns) (total_mass suns)
  suns.map (fun s => { s with velocity := s.velocity - total_velocity })

/-- The inner `v_afterwards` of `elastic_collision` (galaxy.rs lines 116-122). -/
def v_afterwards (a1 a2 : Actor) : Vec :=
  a1.velocity -
    (2 * a2.mass / (a1.mass + a2.mass) *
        dot (a1.velocity - a2.velocity) (a1.pos - a2.pos) /
        normSq (a1.pos - a2.pos)) •
      (a1.pos - a2.pos)

/-- `elastic_collision` (galaxy.rs lines 115-124). -/
def elastic_collision (a1 a2 : Actor) : Vec × Vec :=
  (v_afterwards a1 a2, v_afterwards a2 a1)

/-- The index pairs visited by `(0..len).tuple_combinations()` (galaxy.rs line
127): all `(a, b)` with `a < b < n`, in lexicographic order. -/
def combinations (n : ℕ) : List (ℕ × ℕ) :=
  (List.range n).flatMap
    (fun a => ((List.range n).filter (fun b => decide (a < b))).map (fun b => (a, b)))

/-- The body of the pair loop of `update_vel_and_pos` (galaxy.rs lines 127-144)
for one pair `p`.  `sqrtQ` models `f32::sqrt` as used by `normalize()`. -/
def applyPair (sqrtQ : ℚ → ℚ) (l : List Actor) (p : ℕ × ℕ) : List Actor :=
  let A := l.getD p.1 default
  let B := l.getD p.2 default
  let r_unit_vec := divS (vec_from_points A.pos B.pos) (sqrtQ (normSq (vec_from_points A.pos B.pos)))
  let dist_squ := distance_squared A.pos B.pos
  let touching_dist_squ := (A.radius + B.radius) ^ 2
  if dist_squ < touching_dist_squ then
    let vab := elastic_collision A B
    (l.set p.1 { A with new_velocity := vab.1 }).set p.2 { B with new_velocity := vab.2 }
  else
    let fg := (G * A.mass * B.mass / dist_squ) • r_unit_vec
    let delta_vg_a := divS fg A.mass
    let delta_vg_b := divS (-fg) B.mass
    (l.set p.1 { A with new_velocity := A.new_velocity + delta_vg_a }).set p.2
      { B with new_velocity := B.new_velocity + delta_vg_b }

/-- The per-actor commit loop of `update_vel_and_pos` (galaxy.rs lines 146-157):
adopt the accumulated velocity, integrate the position, and advance the trace. -/
def commitActor (dt : ℚ) (a : Actor) : Actor :=
  let v := a.new_velocity
  let p := a.pos + dt • v
  let cnt := a.trace_cnt + 1
  if cnt = 10 then
    let tr := p :: a.trace
    let tr2 := if TRACE_LEN ≤ tr.length then tr.dropLast else tr
    { a with velocity := v, pos := p, trace_cnt := 0, trace := tr2 }
  else
    { a with velocity := v, pos := p, trace_cnt := cnt }

/-- `update_vel_and_pos` (galaxy.rs lines 126-158). -/
def update_vel_and_pos (sqrtQ : ℚ → ℚ) (actors : List Actor) (dt : ℚ) : List Actor :=
  ((combinations actors.length).foldl (applyPair sqrtQ) actors).map (commitActor dt)

/-- The effect of one committed tick on the pair (trace counter, trace length),
extracted from galaxy.rs lines 149-156: the counter counts to 10, and on a push
the trace grows unless it already holds `TRACE_LEN - 1` points, in which case
the back entry is popped right after the push. -/
def traceStep (p : ℕ × ℕ) : ℕ × ℕ :=
  if p.1 + 1 = 10 then (0, if TRACE_LEN ≤ p.2 + 1 then p.2 else p.2 + 1)
  else (p.1 + 1, p.2)

/-! ## Reference two-phase model of the pair pass (for the refinement claim)

Modelled from the spec: §4.2 step 3 / §5 describe a reference implementation in
which phase one computes all pending velocities from the frozen pre-tick
snapshot into a separate table, and phase two installs the table and commits.
`pairStepT` is the effect of one pair on that table, reading every field other
than the accumulator from the snapshot `l` only. -/

/-- Effect of one pair on the pending-velocity table, reading positions, radii,
masses and live velocities exclusively from the pre-tick snapshot `l`. -/
def pairStepT (sqrtQ : ℚ → ℚ) (l : List Actor) (tbl : ℕ → Vec) (p : ℕ × ℕ) : ℕ → Vec :=
  let A := l.getD p.1 default
  let B := l.getD p.2 default
  let r_unit_vec := divS (vec_from_points A.pos B.pos) (sqrtQ (normSq (vec_from_points A.pos B.pos)))
  let dist_squ := distance_squared A.pos B.pos
  let touching_dist_squ := (A.radius + B.radius) ^ 2
  if dist_squ < touching_dist_squ then
    let vab := elastic_collision A B
    fun j => if j = p.2 then vab.2 else if j = p.1 then vab.1 else tbl j
  else
    let fg := (G * A.mass * B.mass / dist_squ) • r_unit_vec
    fun j =>
      if j = p.2 then tbl p.2 + divS (-fg) B.mass
      else if j = p.1 then tbl p.1 + divS fg A.mass
      else tbl j

/-- Install a pending-velocity table into a body list: body `i` keeps all its
fields except that its accumulator becomes `tbl i`. -/
def withNV : List Actor → (ℕ → Vec) → List Actor
  | [], _ => []
  | a :: l, tbl => { a with new_velocity := tbl 0 } :: withNV l (fun i => tbl (i + 1))

/-- Modelled from the spec: the two-phase (compute-all-then-commit) reference
integration step of §4.2/§5.  Phase one folds the pair effects over a
pending-velocity table, reading only the pre-tick snapshot; phase two installs
the table and runs the per-body commit. -/
def update_two_phase (sqrtQ : ℚ → ℚ) (actors : List Actor) (dt : ℚ) : List Actor :=
  let tbl := (combinations actors.length).foldl (pairStepT sqrtQ actors)
    (fun i => (actors.getD i default).new_velocity)
  (withNV actors tbl).map (commitActor dt)

/-! ## The legacy engine of `src/main.rs`

`main.rs` keeps a simpler `Actor` (lines 44-52) and an `update_vel_and_pos`
(lines 104-134) that mutates velocities in place inside a nested index loop and
adds a "dark matter" pull toward the origin. -/

namespace Legacy

-- Constants of main.rs lines 54-60.
def SUN_MIN_MASS : ℚ := 10
def SUN_MAX_MASS : ℚ := 50
def SUN_DENSITY : ℚ := 0.01
def G : ℚ := 6.67384
def G_DARK : ℚ := 0.01

/-- `Actor` (main.rs lines 44-52). -/
structure Actor where
  tag : ActorType
  id : ℕ
  pos : Vec
  velocity : Vec
  mass : ℚ
  radius : ℚ
deriving DecidableEq, Repr

instance : Inhabited Actor := ⟨⟨ActorType.Sun, 0, (0, 0), (0, 0), 0, 0⟩⟩

/-- The inner `v_afterwards` of `elastic_collision` (main.rs lines 94-100). -/
def v_afterwards (a1 a2 : Actor) : Vec :=
  a1.velocity -
    (2 * a2.mass / (a1.mass + a2.mass) *
        NBody.dot (a1.velocity - a2.velocity) (a1.pos - a2.pos) /
        normSq (a1.pos - a2.pos)) •
      (a1.pos - a2.pos)

/-- `elastic_collision` (main.rs lines 93-102). -/
def elastic_collision (a1 a2 : Actor) : Vec × Vec :=
  (v_afterwards a1 a2, v_afterwards a2 a1)

/-- The body of the inner `j` loop of `update_vel_and_pos` (main.rs lines
106-125): skip `i = j`, add the gravity kick to `actors[i].velocity` in place,
then for `i < j` resolve a detected collision, overwriting both velocities. -/
def innerStep (sqrtQ : ℚ → ℚ) (i : ℕ) (l : List Actor) (j : ℕ) : List Actor :=
  if i = j then l
  else
    let A := l.getD i default
    let B := l.getD j default
    let r_unit_vec := divS (vec_from_points A.pos B.pos) (sqrtQ (normSq (vec_from_points A.pos B.pos)))
    let dist_squ := distance_squared A.pos B.pos
    let g := (G * A.mass * B.mass / dist_squ) • r_unit_vec
    let l1 := l.set i { A with velocity := A.velocity + g }
    if i < j then
      let touching_dist_squ := (A.radius + B.radius) ^ 2
      if dist_squ < touching_dist_squ then
        let A1 := l1.getD i default
        let B1 := l1.getD j default
        let vij := elastic_collision A1 B1
        (l1.set i { A1 with velocity := vij.1 }).set j { B1 with velocity := vij.2 }
      else l1
    else l1

/-- The full inner loop `for j in 0..actors.len()` for a fixed `i`. -/
def innerLoop (sqrtQ : ℚ → ℚ) (i : ℕ) (l : List Actor) : List Actor :=
  (List.range l.length).foldl (innerStep sqrtQ i) l

/-- One iteration of the outer `i` loop of `update_vel_and_pos` (main.rs lines
105-133): run the pairwise inner loop for `i`, then add the dark-matter pull
`(origin - pos) * G_DARK` to `actors[i].velocity`, then integrate its position. -/
def processActor (sqrtQ : ℚ → ℚ) (dt : ℚ) (l : List Actor) (i : ℕ) : List Actor :=
  let l1 := innerLoop sqrtQ i l
  let A := l1.getD i default
  let v1 := A.velocity + G_DARK • vec_from_points A.pos (0, 0)
  l1.set i { A with velocity := v1, pos := A.pos + dt • v1 }

/-- `update_vel_and_pos` (main.rs lines 104-134). -/
def update_vel_and_pos (sqrtQ : ℚ → ℚ) (actors : List Actor) (dt : ℚ) : List Actor :=
  (List.range actors.length).foldl (processActor sqrtQ dt) actors

end Legacy

/-! ## Concrete inputs used by witnesses and counterexamples -/

/-- The two test bodies of `test_collision_central_one_moving` (galaxy.rs lines
166-195): mass 10, radius 100, positions `(0,0)` and `(200,0)`. -/
def Wa : Actor := ⟨ActorType.Sun, 1, (0, 0), [], 0, 100, (10, 0), (0, 0), 10, 0⟩

/-- Second test body, see `Wa`. -/
def Wb : Actor := ⟨ActorType.Sun, 2, (200, 0), [], 0, 100, (0, 0), (0, 0), 10, 0⟩

/-- A concrete stand-in for `f32::sqrt` at witness inputs. -/
def sqrt1 : ℚ → ℚ := fun _ => 1

/-- A concrete stand-in for `f32::cbrt` at witness inputs; positive on all
inputs, so it satisfies the cube-root positivity hypothesis. -/
def cbrt1 : ℚ → ℚ := fun _ => 1

/-- A concrete random stream: two suns with mass draw `0` (so mass
`SUN_MIN_MASS = 0.3`), ids `1` and `2`, positions `(0,0)` and `(1,0)` (inside
any spawn disk of radius at least 1) and velocities `(10,0)` and `(0,0)`
(within the speed cap 100). -/
def cexDraws : ℕ → SunDraw :=
  fun k => if k = 0 then ⟨0, 1, (0, 0), (10, 0)⟩ else ⟨0, 2, (1, 0), (0, 0)⟩

/-- A random stream that yields the same `u32` id draw, `5`, for every sun. -/
def dupDraws : ℕ → SunDraw := fun _ => ⟨0, 5, (0, 0), (0, 0)⟩

/-- A single body in motion: its pending velocity is `(1,0)`, so every tick
commits velocity `(1,0)` and moves it; fresh empty trace. -/
def b7 : Actor := ⟨ActorType.Sun, 0, (0, 0), [], 0, 1, (0, 0), (1, 0), 1, 0⟩

/-- A single legacy body away from the origin. -/
def lA : Legacy.Actor := ⟨ActorType.Sun, 0, (3, 4), (7, 0), 5, 1⟩

/-- A single galaxy body away from the origin with nonzero velocity. -/
def cexBody : Actor := ⟨ActorType.Sun, 3, (3, 4), [], 0, 1, (7, 0), (7, 0), 5, 0⟩

/-! ## Basic vector lemmas -/

theorem dot_mk (a b c d : ℚ) : dot (a, b) (c, d) = a * c + b * d := rfl

theorem normSq_apply (v : Vec) : normSq v = v.1 * v.1 + v.2 * v.2 := rfl

theorem divS_mk (a b c : ℚ) : divS (a, b) c = (a / c, b / c) := rfl

theorem normSq_neg (v : Vec) : normSq (-v) = normSq v := by
  rcases v with ⟨x, y⟩
  simp only [normSq, dot, Prod.fst_neg, Prod.snd_neg]
  ring

theorem normSq_pos (v : Vec) (h : v ≠ 0) : 0 < normSq v := by
  rcases v with ⟨x, y⟩
  have hxy : x ≠ 0 ∨ y ≠ 0 := by
    by_contra hc
    push_neg at hc
    exact h (by simp [Prod.ext_iff, hc.1, hc.2])
  rw [normSq_apply]
  rcases hxy with hx | hy
  · nlinarith [mul_self_nonneg y, mul_self_pos.mpr hx]
  · nlinarith [mul_self_nonneg x, mul_self_pos.mpr hy]

/-! ## C1: the collision resolver conserves momentum and kinetic energy -/

theorem coeff_div_eq (m M S D : ℚ) : 2 * m / M * S / D = m * (2 * S / (M * D)) := by
  rw [div_mul_eq_mul_div, div_div]
  rw [show (2 : ℚ) * m * S = m * (2 * S) by ring, mul_div_assoc]

/-- Claim C1: for two bodies with positive masses and distinct positions,
`elastic_collision` conserves total momentum and total kinetic energy
(exactly, in the exact-arithmetic embedding of the `f32` formula). -/
theorem elastic_collision_conserves_momentum_energy (a1 a2 : Actor)
    (hm1 : 0 < a1.mass) (hm2 : 0 < a2.mass) (hp : a1.pos ≠ a2.pos) :
    a1.mass • (elastic_collision a1 a2).1 + a2.mass • (elastic_collision a1 a2).2
        = a1.mass • a1.velocity + a2.mass • a2.velocity ∧
      a1.mass * normSq (elastic_collision a1 a2).1
          + a2.mass * normSq (elastic_collision a1 a2).2
        = a1.mass * normSq a1.velocity + a2.mass * normSq a2.velocity := by
  have hM : a1.mass + a2.mass ≠ 0 := (add_pos hm1 hm2).ne'
  have hd0 : a1.pos - a2.pos ≠ 0 := sub_ne_zero.mpr hp
  have hD : normSq (a1.pos - a2.pos) ≠ 0 := (normSq_pos _ hd0).ne'
  rcases hv1 : a1.velocity with ⟨v1x, v1y⟩
  rcases hv2 : a2.velocity with ⟨v2x, v2y⟩
  rcases hp1 : a1.pos with ⟨p1x, p1y⟩
  rcases hp2 : a2.pos with ⟨p2x, p2y⟩
  rw [hp1, hp2] at hD
  simp only [Prod.mk_sub_mk, normSq, dot] at hD
  have hMD : (a1.mass + a2.mass) *
      ((p1x - p2x) * (p1x - p2x) + (p1y - p2y) * (p1y - p2y)) ≠ 0 :=
    mul_ne_zero hM hD
  set k : ℚ :=
      2 * ((v1x - v2x) * (p1x - p2x) + (v1y - v2y) * (p1y - p2y)) /
        ((a1.mass + a2.mass) *
          ((p1x - p2x) * (p1x - p2x) + (p1y - p2y) * (p1y - p2y))) with hk_def
  have hk : k * ((a1.mass + a2.mass) *
        ((p1x - p2x) * (p1x - p2x) + (p1y - p2y) * (p1y - p2y)))
      = 2 * ((v1x - v2x) * (p1x - p2x) + (v1y - v2y) * (p1y - p2y)) := by
    rw [hk_def]
    exact div_mul_cancel₀ _ hMD
  have e1 : (elastic_collision a1 a2).1
      = (v1x - a2.mass * k * (p1x - p2x), v1y - a2.mass * k * (p1y - p2y)) := by
    rw [hk_def]
    simp only [elastic_collision, v_afterwards, hv1, hv2, hp1, hp2, Prod.mk_sub_mk,
      dot_mk, normSq, dot, Prod.smul_mk, smul_eq_mul, Prod.mk.injEq]
    constructor <;> (rw [coeff_div_eq]; try ring)
  have e2 : (elastic_collision a1 a2).2
      = (v2x + a1.mass * k * (p1x - p2x), v2y + a1.mass * k * (p1y - p2y)) := by
    rw [hk_def]
    simp only [elastic_collision, v_afterwards, hv1, hv2, hp1, hp2, Prod.mk_sub_mk,
      dot_mk, normSq, dot, Prod.smul_mk, smul_eq_mul, Prod.mk.injEq]
    have hS : (v2x - v1x) * (p2x - p1x) + (v2y - v1y) * (p2y - p1y)
        = (v1x - v2x) * (p1x - p2x) + (v1y - v2y) * (p1y - p2y) := by ring
    have hDsym : (p2x - p1x) * (p2x - p1x) + (p2y - p1y) * (p2y - p1y)
        = (p1x - p2x) * (p1x - p2x) + (p1y - p2y) * (p1y - p2y) := by ring
    rw [hS, hDsym]
    constructor <;> (rw [coeff_div_eq]; try ring)
  clear_value k
  clear hk_def
  rw [e1, e2]
  simp only [Prod.smul_mk, smul_eq_mul, Prod.mk_add_mk, normSq, dot, Prod.mk.injEq]
  refine ⟨⟨by ring, by ring⟩, ?_⟩
  linear_combination (a1.mass * a2.mass * k) * hk

/-- Witness for C1: the conservation theorem applied to the two concrete test
bodies of the repository's unit tests. -/
theorem elastic_collision_conserves_momentum_energy_witness :
    Wa.mass • (elastic_collision Wa Wb).1 + Wb.mass • (elastic_collision Wa Wb).2
        = Wa.mass • Wa.velocity + Wb.mass • Wb.velocity ∧
      Wa.mass * normSq (elastic_collision Wa Wb).1
          + Wb.mass * normSq (elastic_collision Wa Wb).2
        = Wa.mass * normSq Wa.velocity + Wb.mass * normSq Wb.velocity :=
  elastic_collision_conserves_momentum_energy Wa Wb
    (by norm_num [Wa]) (by norm_num [Wb]) (by norm_num [Wa, Wb, Prod.ext_iff])

/-! ## C2: the two central equal-mass collision scenarios -/

/-- Claim C2: with mass 10 for both bodies, positions `(0,0)` and `(200,0)`,
`elastic_collision` maps velocities `(10,0)`/`(0,0)` to `(0,0)`/`(10,0)`, and
velocities `(10,0)`/`(-10,0)` to `(-10,0)`/`(10,0)` — the exact scenarios of
the unit tests `test_collision_central_one_moving` and
`test_collision_central_both_moving`. -/
theorem elastic_collision_central_scenarios :
    elastic_collision Wa Wb = ((0, 0), (10, 0)) ∧
      elastic_collision Wa { Wb with velocity := (-10, 0) } = ((-10, 0), (10, 0)) := by
  constructor <;>
    norm_num [elastic_collision, v_afterwards, Wa, Wb, dot, normSq, Prod.ext_iff]

/-! ## C3: total momentum is zero immediately after `create_suns` -/

theorem total_momentum_cons (a : Actor) (l : List Actor) :
    total_momentum (a :: l) = a.mass • a.velocity + total_momentum l := by
  simp [total_momentum]

theorem total_mass_cons (a : Actor) (l : List Actor) :
    total_mass (a :: l) = a.mass + total_mass l := by
  simp [total_mass]

theorem total_momentum_map_sub (l : List Actor) (c : Vec) :
    total_momentum (l.map (fun s => { s with velocity := s.velocity - c }))
      = total_momentum l - total_mass l • c := by
  induction l with
  | nil => simp [total_momentum, total_mass]
  | cons a l ih =>
      simp only [List.map_cons, total_momentum_cons, total_mass_cons, ih]
      rw [smul_sub, add_smul]
      abel

theorem total_mass_nonneg (l : List Actor) (h : ∀ a ∈ l, 0 ≤ a.mass) :
    0 ≤ total_mass l := by
  induction l with
  | nil => simp [total_mass]
  | cons a l ih =>
      rw [total_mass_cons]
      have := h a (by simp)
      have := ih (fun b hb => h b (by simp [hb]))
      linarith

theorem total_mass_pos (l : List Actor) (hne : l ≠ []) (h : ∀ a ∈ l, 0 < a.mass) :
    0 < total_mass l := by
  cases l with
  | nil => exact absurd rfl hne
  | cons a l =>
      rw [total_mass_cons]
      have h1 := h a (by simp)
      have h2 := total_mass_nonneg l (fun b hb => (h b (by simp [hb])).le)
      linarith

theorem smul_divS (P : Vec) (M : ℚ) (h : M ≠ 0) : M • divS P M = P := by
  rcases P with ⟨x, y⟩
  simp [divS, Prod.smul_mk, smul_eq_mul, mul_div_cancel₀, h, Prod.ext_iff]

theorem sub_divS_smul_self (v : Vec) (m : ℚ) (hm : m ≠ 0) :
    v - divS (m • v) m = 0 := by
  rcases v with ⟨x, y⟩
  simp [divS, Prod.smul_mk, smul_eq_mul, mul_div_cancel_left₀, hm, Prod.ext_iff,
    Prod.mk_sub_mk]

theorem mkSun_mass_pos (cQ : ℚ → ℚ) (piQ : ℚ) (d : SunDraw) (h : 0 ≤ d.massDraw) :
    0 < (mkSun cQ piQ d).mass := by
  have h10 : 0 ≤ d.massDraw ^ 10 := pow_nonneg h 10
  simp only [mkSun]
  norm_num [SUN_MIN_MASS, SUN_MAX_MASS, CLASS_M, CLASS_O]
  nlinarith

/-- Claim C3: for every count `num ≥ 1` and every behaviour of the random
source, the total momentum of the bodies returned by `create_suns` is the zero
vector (the correction step subtracts `total_momentum / total_mass` from every
velocity); and for `num = 1` the single body's velocity is the zero vector. -/
theorem create_suns_total_momentum_zero (num : ℕ) (draws : ℕ → SunDraw)
    (cbrtQ : ℚ → ℚ) (piQ : ℚ) (hnum : 1 ≤ num) (hr : ∀ k, 0 ≤ (draws k).massDraw) :
    total_momentum (create_suns num draws cbrtQ piQ) = 0 ∧
      (num = 1 → ∀ a ∈ create_suns num draws cbrtQ piQ, a.velocity = 0) := by
  have hmass : ∀ a ∈ (List.range num).map (fun k => mkSun cbrtQ piQ (draws k)),
      0 < a.mass := by
    intro a ha
    obtain ⟨k, _, rfl⟩ := List.mem_map.mp ha
    exact mkSun_mass_pos _ _ _ (hr k)
  have hne : (List.range num).map (fun k => mkSun cbrtQ piQ (draws k)) ≠ [] := by
    intro h
    have := congrArg List.length h
    simp at this
    omega
  have hM : total_mass ((List.range num).map (fun k => mkSun cbrtQ piQ (draws k))) ≠ 0 :=
    (total_mass_pos _ hne hmass).ne'
  constructor
  · show total_momentum (((List.range num).map (fun k => mkSun cbrtQ piQ (draws k))).map _) = 0
    rw [total_momentum_map_sub, smul_divS _ _ hM, sub_self]
  · intro h1 a ha
    subst h1
    have hr1 : List.range 1 = [0] := rfl
    simp only [create_suns, hr1, List.map_cons, List.map_nil,
      List.mem_singleton] at ha
    subst ha
    simp only [total_momentum, total_mass, List.map_cons, List.map_nil,
      List.sum_cons, List.sum_nil, add_zero]
    exact sub_divS_smul_self _ _ (mkSun_mass_pos cbrtQ piQ (draws 0) (hr 0)).ne'

/-- Witness for C3: a single sun created from concrete draws ends with total
momentum zero and velocity zero. -/
theorem create_suns_total_momentum_zero_witness :
    total_momentum (create_suns 1 cexDraws cbrt1 3) = 0 ∧
      (1 = 1 → ∀ a ∈ create_suns 1 cexDraws cbrt1 3, a.velocity = 0) :=
  create_suns_total_momentum_zero 1 cexDraws cbrt1 3 (by norm_num)
    (by intro k; by_cases h : k = 0 <;> simp [cexDraws, h])

/-! ## C4: the in-place pair pass refines the two-phase reference -/

theorem withNV_length (l : List Actor) (tbl : ℕ → Vec) :
    (withNV l tbl).length = l.length := by
  induction l generalizing tbl with
  | nil => rfl
  | cons a l ih => simp [withNV, ih]

theorem withNV_congr (l : List Actor) (tbl tbl2 : ℕ → Vec)
    (h : ∀ i < l.length, tbl i = tbl2 i) : withNV l tbl = withNV l tbl2 := by
  induction l generalizing tbl tbl2 with
  | nil => rfl
  | cons a l ih =>
      simp only [withNV, List.cons.injEq]
      constructor
      · rw [h 0 (by simp)]
      · exact ih _ _ (fun i hi => h (i + 1) (by simpa using hi))

theorem withNV_self (l : List Actor) :
    withNV l (fun i => (l.getD i default).new_velocity) = l := by
  induction l with
  | nil => rfl
  | cons a l ih =>
      simp only [withNV, List.getD_cons_zero, List.getD_cons_succ]
      rw [ih]

theorem withNV_getD (l : List Actor) (tbl : ℕ → Vec) (i : ℕ) (hi : i < l.length) :
    (withNV l tbl).getD i default = { l.getD i default with new_velocity := tbl i } := by
  induction l generalizing tbl i with
  | nil => simp at hi
  | cons a l ih =>
      cases i with
      | zero => simp [withNV]
      | succ i => simpa [withNV] using ih _ i (by simpa using hi)

theorem withNV_set (l : List Actor) (tbl : ℕ → Vec) (i : ℕ) (v : Vec)
    (hi : i < l.length) :
    (withNV l tbl).set i { l.getD i default with new_velocity := v }
      = withNV l (fun j => if j = i then v else tbl j) := by
  induction l generalizing tbl i with
  | nil => simp at hi
  | cons a l ih =>
      cases i with
      | zero =>
          simp only [withNV, List.getD_cons_zero, List.set_cons_zero, List.cons.injEq]
          exact ⟨rfl, withNV_congr _ _ _ (fun j _ => by simp)⟩
      | succ i =>
          simp only [withNV, List.getD_cons_succ, List.set_cons_succ, List.cons.injEq]
          refine ⟨by simp, ?_⟩
          rw [ih _ i (by simpa using hi)]
          exact withNV_congr _ _ _ (fun j _ => by simp)

theorem mem_combinations (n : ℕ) (p : ℕ × ℕ) (hp : p ∈ combinations n) :
    p.1 < p.2 ∧ p.2 < n := by
  simp only [combinations, List.mem_flatMap, List.mem_map, List.mem_filter,
    List.mem_range, decide_eq_true_eq] at hp
  obtain ⟨a, _, b, ⟨hbn, hab⟩, rfl⟩ := hp
  exact ⟨hab, hbn⟩

theorem elastic_collision_nv_congr (a1 a2 : Actor) (w1 w2 : Vec) :
    elastic_collision { a1 with new_velocity := w1 } { a2 with new_velocity := w2 }
      = elastic_collision a1 a2 := rfl

theorem applyPair_withNV (s : ℚ → ℚ) (l : List Actor) (tbl : ℕ → Vec) (p : ℕ × ℕ)
    (ha : p.1 < l.length) (hb : p.2 < l.length) :
    applyPair s (withNV l tbl) p = withNV l (pairStepT s l tbl p) := by
  have hga := withNV_getD l tbl p.1 ha
  have hgb := withNV_getD l tbl p.2 hb
  simp only [applyPair, pairStepT, hga, hgb, elastic_collision_nv_congr]
  split
  · rw [withNV_set l tbl p.1 _ ha, withNV_set l _ p.2 _ hb]
  · rw [withNV_set l tbl p.1 _ ha, withNV_set l _ p.2 _ hb]

theorem foldl_applyPair_withNV (s : ℚ → ℚ) (ps : List (ℕ × ℕ)) (l : List Actor)
    (tbl : ℕ → Vec) (h : ∀ p ∈ ps, p.1 < l.length ∧ p.2 < l.length) :
    ps.foldl (applyPair s) (withNV l tbl) = withNV l (ps.foldl (pairStepT s l) tbl) := by
  induction ps generalizing tbl with
  | nil => rfl
  | cons p ps ih =>
      simp only [List.foldl_cons]
      rw [applyPair_withNV s l tbl p (h p (by simp)).1 (h p (by simp)).2]
      exact ih _ (fun q hq => h q (by simp [hq]))

/-- Claim C4: the in-place pair loop plus commit of `update_vel_and_pos` equals
the two-phase reference implementation that computes every pairwise interaction
from the frozen pre-tick snapshot and only then commits the accumulated
velocities for all bodies. -/
theorem update_vel_and_pos_eq_two_phase (s : ℚ → ℚ) (l : List Actor) (dt : ℚ) :
    update_vel_and_pos s l dt = update_two_phase s l dt := by
  have hmem : ∀ p ∈ combinations l.length, p.1 < l.length ∧ p.2 < l.length := by
    intro p hp
    obtain ⟨h1, h2⟩ := mem_combinations _ _ hp
    exact ⟨h1.trans h2, h2⟩
  have key := foldl_applyPair_withNV s (combinations l.length) l
    (fun i => (l.getD i default).new_velocity) hmem
  rw [withNV_self] at key
  show ((combinations l.length).foldl (applyPair s) l).map (commitActor dt) = _
  rw [key]
  rfl

/-! ## C10 and C9: frame and positivity of the integration step -/

theorem getD_set {α : Type} (l : List α) (i j : ℕ) (x d : α) :
    (l.set i x).getD j d = if i = j ∧ i < l.length then x else l.getD j d := by
  induction l generalizing i j with
  | nil => simp
  | cons a l ih =>
      cases i with
      | zero =>
          cases j with
          | zero => simp
          | succ j => simp
      | succ i =>
          cases j with
          | zero => simp
          | succ j =>
              simp only [List.set_cons_succ, List.getD_cons_succ, List.length_cons, ih]
              by_cases h : i = j ∧ i < l.length
              · rw [if_pos h, if_pos ⟨by omega, by omega⟩]
              · rw [if_neg h, if_neg (by omega)]

theorem getD_map_commit (dt : ℚ) (l : List Actor) (i : ℕ) (h : i < l.length) :
    (l.map (commitActor dt)).getD i default = commitActor dt (l.getD i default) := by
  induction l generalizing i with
  | nil => simp at h
  | cons a l ih =>
      cases i with
      | zero => simp
      | succ i => simpa using ih i (by simpa using h)

theorem applyPair_frame (s : ℚ → ℚ) (l : List Actor) (p : ℕ × ℕ) (i : ℕ) :
    ∃ w, (applyPair s l p).getD i default
      = { l.getD i default with new_velocity := w } := by
  simp only [applyPair]
  split <;> rw [getD_set, getD_set] <;> split_ifs with h1 h2
  · obtain ⟨hp, _⟩ := h1
    subst hp
    exact ⟨_, rfl⟩
  · obtain ⟨hp, _⟩ := h2
    subst hp
    exact ⟨_, rfl⟩
  · exact ⟨(l.getD i default).new_velocity, rfl⟩
  · obtain ⟨hp, _⟩ := h1
    subst hp
    exact ⟨_, rfl⟩
  · obtain ⟨hp, _⟩ := h2
    subst hp
    exact ⟨_, rfl⟩
  · exact ⟨(l.getD i default).new_velocity, rfl⟩

theorem foldl_applyPair_frame (s : ℚ → ℚ) (ps : List (ℕ × ℕ)) (l : List Actor) (i : ℕ) :
    ∃ w, (ps.foldl (applyPair s) l).getD i default
      = { l.getD i default with new_velocity := w } := by
  induction ps generalizing l with
  | nil => exact ⟨(l.getD i default).new_velocity, rfl⟩
  | cons p ps ih =>
      simp only [List.foldl_cons]
      obtain ⟨w1, h1⟩ := applyPair_frame s l p i
      obtain ⟨w2, h2⟩ := ih (applyPair s l p)
      rw [h1] at h2
      exact ⟨w2, h2⟩

theorem applyPair_length (s : ℚ → ℚ) (l : List Actor) (p : ℕ × ℕ) :
    (applyPair s l p).length = l.length := by
  simp only [applyPair]
  split <;> simp

theorem foldl_applyPair_length (s : ℚ → ℚ) (ps : List (ℕ × ℕ)) (l : List Actor) :
    (ps.foldl (applyPair s) l).length = l.length := by
  induction ps generalizing l with
  | nil => rfl
  | cons p ps ih => simp only [List.foldl_cons]; rw [ih, applyPair_length]

theorem update_vel_and_pos_length (s : ℚ → ℚ) (l : List Actor) (dt : ℚ) :
    (update_vel_and_pos s l dt).length = l.length := by
  simp [update_vel_and_pos, foldl_applyPair_length]

theorem commitActor_mass (dt : ℚ) (a : Actor) : (commitActor dt a).mass = a.mass := by
  simp only [commitActor]
  split <;> rfl

theorem commitActor_radius (dt : ℚ) (a : Actor) : (commitActor dt a).radius = a.radius := by
  simp only [commitActor]
  split <;> rfl

theorem commitActor_color (dt : ℚ) (a : Actor) : (commitActor dt a).color = a.color := by
  simp only [commitActor]
  split <;> rfl

theorem commitActor_id (dt : ℚ) (a : Actor) : (commitActor dt a).id = a.id := by
  simp only [commitActor]
  split <;> rfl

theorem commitActor_velocity (dt : ℚ) (a : Actor) :
    (commitActor dt a).velocity = a.new_velocity := by
  simp only [commitActor]
  split <;> rfl

theorem commitActor_new_velocity (dt : ℚ) (a : Actor) :
    (commitActor dt a).new_velocity = a.new_velocity := by
  simp only [commitActor]
  split <;> rfl

theorem update_getD_frame (s : ℚ → ℚ) (l : List Actor) (dt : ℚ) (i : ℕ) :
    ((update_vel_and_pos s l dt).getD i default).mass = (l.getD i default).mass ∧
      ((update_vel_and_pos s l dt).getD i default).radius = (l.getD i default).radius ∧
      ((update_vel_and_pos s l dt).getD i default).color = (l.getD i default).color ∧
      ((update_vel_and_pos s l dt).getD i default).id = (l.getD i default).id := by
  by_cases hi : i < l.length
  · obtain ⟨w, hw⟩ := foldl_applyPair_frame s (combinations l.length) l i
    have hlen : i < ((combinations l.length).foldl (applyPair s) l).length := by
      rwa [foldl_applyPair_length]
    simp only [update_vel_and_pos, getD_map_commit _ _ _ hlen, hw, commitActor_mass,
      commitActor_radius, commitActor_color, commitActor_id]
    exact ⟨trivial, trivial, trivial, trivial⟩
  · have h1 : (update_vel_and_pos s l dt).getD i default = default := by
      apply List.getD_eq_default
      rw [update_vel_and_pos_length]
      omega
    have h2 : l.getD i default = default := List.getD_eq_default _ _ (by omega)
    rw [h1, h2]
    exact ⟨rfl, rfl, rfl, rfl⟩

/-- Claim C10: one integration step leaves every body's mass, radius, color and
identifier unchanged (and does not add or remove bodies). -/
theorem update_preserves_mass_radius_color_id (s : ℚ → ℚ) (l : List Actor) (dt : ℚ) :
    (update_vel_and_pos s l dt).length = l.length ∧
      ∀ i : ℕ,
        ((update_vel_and_pos s l dt).getD i default).mass = (l.getD i default).mass ∧
        ((update_vel_and_pos s l dt).getD i default).radius = (l.getD i default).radius ∧
        ((update_vel_and_pos s l dt).getD i default).color = (l.getD i default).color ∧
        ((update_vel_and_pos s l dt).getD i default).id = (l.getD i default).id :=
  ⟨update_vel_and_pos_length s l dt, fun i => update_getD_frame s l dt i⟩

theorem getD_eq_getElem_lt (l : List Actor) (i : ℕ) (h : i < l.length) :
    l.getD i default = l[i] := by
  induction l generalizing i with
  | nil => simp at h
  | cons a l ih =>
      cases i with
      | zero => simp
      | succ i => simpa using ih i (by simpa using h)

theorem getD_mem_of_lt (l : List Actor) (i : ℕ) (h : i < l.length) :
    l.getD i default ∈ l := by
  rw [getD_eq_getElem_lt l i h]
  exact List.getElem_mem h

theorem mkSun_radius_pos (cQ : ℚ → ℚ) (piQ : ℚ) (d : SunDraw)
    (h : 0 ≤ d.massDraw) (hc : ∀ x, 0 < x → 0 < cQ x) (hpi : 0 < piQ) :
    0 < (mkSun cQ piQ d).radius := by
  have hm : 0 < (mkSun cQ piQ d).mass := mkSun_mass_pos cQ piQ d h
  simp only [mkSun] at hm ⊢
  apply hc
  have hden : (0 : ℚ) < SUN_DENSITY := by norm_num [SUN_DENSITY]
  positivity

/-- Claim C9: every spawned body has positive mass and positive radius, and one
integration step preserves positivity of every body's mass and radius. -/
theorem mass_radius_positive :
    (∀ (num : ℕ) (draws : ℕ → SunDraw) (cbrtQ : ℚ → ℚ) (piQ : ℚ),
        (∀ k, 0 ≤ (draws k).massDraw) → (∀ x, 0 < x → 0 < cbrtQ x) → 0 < piQ →
        ∀ a ∈ create_suns num draws cbrtQ piQ, 0 < a.mass ∧ 0 < a.radius) ∧
      (∀ (s : ℚ → ℚ) (l : List Actor) (dt : ℚ),
        (∀ b ∈ l, 0 < b.mass ∧ 0 < b.radius) →
        ∀ a ∈ update_vel_and_pos s l dt, 0 < a.mass ∧ 0 < a.radius) := by
  constructor
  · intro num draws cbrtQ piQ hr hc hpi a ha
    simp only [create_suns, List.mem_map] at ha
    obtain ⟨b, hb, rfl⟩ := ha
    obtain ⟨k, -, rfl⟩ := hb
    exact ⟨mkSun_mass_pos cbrtQ piQ (draws k) (hr k),
      mkSun_radius_pos cbrtQ piQ (draws k) (hr k) hc hpi⟩
  · intro s l dt hl a ha
    obtain ⟨i, hilen, hEq⟩ := List.mem_iff_getElem.mp ha
    have hi : i < l.length := by
      rwa [update_vel_and_pos_length] at hilen
    have hkey := update_getD_frame s l dt i
    rw [getD_eq_getElem_lt _ _ hilen, hEq] at hkey
    have hmem := hl (l.getD i default) (getD_mem_of_lt l i hi)
    exact ⟨hkey.1 ▸ hmem.1, hkey.2.1 ▸ hmem.2⟩

/-- Witness for C9: the single concretely spawned sun has positive mass and
radius (its update-preservation half is applied through the same theorem). -/
theorem mass_radius_positive_witness :
    0 < ((create_suns 1 cexDraws cbrt1 3).getD 0 default).mass ∧
      0 < ((create_suns 1 cexDraws cbrt1 3).getD 0 default).radius :=
  mass_radius_positive.1 1 cexDraws cbrt1 3
    (fun k => by by_cases h : k = 0 <;> simp [cexDraws, h])
    (fun x _ => by norm_num [cbrt1]) (by norm_num)
    ((create_suns 1 cexDraws cbrt1 3).getD 0 default)
    (getD_mem_of_lt _ 0 (by simp [create_suns]))

/-! ## C5: the pending-velocity accumulator across ticks -/

set_option maxHeartbeats 1000000 in
theorem create_two_suns_concrete : create_suns 2 cexDraws cbrt1 3 =
    [⟨ActorType.Sun, 1, (0, 0), [], 0, 1, (5, 0), (0, 0), 0.3, 0xffd870ff⟩,
     ⟨ActorType.Sun, 2, (1, 0), [], 0, 1, (-5, 0), (0, 0), 0.3, 0xffd870ff⟩] := by
  norm_num [create_suns, mkSun, cexDraws, cbrt1, total_momentum, total_mass, divS,
    SUN_MIN_MASS, SUN_MAX_MASS, SUN_DENSITY, CLASS_M, CLASS_O, color_from_mass,
    CLASS_K, CLASS_G, CLASS_F, CLASS_A, CLASS_B, Prod.ext_iff,
    show List.range 2 = [0, 1] from rfl]

/-- Counterexample to C5 as stated: in the reachable state after one tick on two
concretely spawned colliding suns, body 0 starts the next tick with a nonzero
pending-velocity accumulator — `update_vel_and_pos` never resets
`new_velocity` to zero. -/
theorem new_velocity_zero_at_tick_start_cex :
    ((update_vel_and_pos sqrt1 (create_suns 2 cexDraws cbrt1 3) 1).getD 0
        default).new_velocity ≠ 0 := by
  rw [create_two_suns_concrete]
  norm_num [update_vel_and_pos, show combinations 2 = [(0, 1)] from rfl,
    applyPair, commitActor, elastic_collision, v_afterwards, divS, dot, normSq,
    distance_squared, vec_from_points, sqrt1, G, TRACE_LEN, Prod.ext_iff]

/-- Claim C5 (amended): the pending accumulator `new_velocity` is *not*
zero-initialized each tick; instead, after every integration step it equals the
body's live velocity (the commit copies it into `velocity` and leaves it in
place), it is zero only at spawn, and at the end of each tick the accumulated
value replaces — does not add to — every body's previous velocity. -/
theorem new_velocity_carries_over :
    (∀ (s : ℚ → ℚ) (l : List Actor) (dt : ℚ),
        ∀ a ∈ update_vel_and_pos s l dt, a.new_velocity = a.velocity) ∧
      (∀ (num : ℕ) (draws : ℕ → SunDraw) (cbrtQ : ℚ → ℚ) (piQ : ℚ),
        ∀ a ∈ create_suns num draws cbrtQ piQ, a.new_velocity = 0) ∧
      (∀ (s : ℚ → ℚ) (l : List Actor) (dt : ℚ) (i : ℕ),
        ((update_vel_and_pos s l dt).getD i default).velocity
          = (((combinations l.length).foldl (applyPair s) l).getD i default).new_velocity) := by
  refine ⟨?_, ?_, ?_⟩
  · intro s l dt a ha
    simp only [update_vel_and_pos, List.mem_map] at ha
    obtain ⟨b, _, rfl⟩ := ha
    rw [commitActor_velocity, commitActor_new_velocity]
  · intro num draws cbrtQ piQ a ha
    simp only [create_suns, List.mem_map] at ha
    obtain ⟨b, hb, rfl⟩ := ha
    obtain ⟨k, -, rfl⟩ := hb
    rfl
  · intro s l dt i
    by_cases hi : i < l.length
    · have hlen : i < ((combinations l.length).foldl (applyPair s) l).length := by
        rwa [foldl_applyPair_length]
      show ((((combinations l.length).foldl (applyPair s) l).map
          (commitActor dt)).getD i default).velocity = _
      rw [getD_map_commit _ _ _ hlen, commitActor_velocity]
    · have h1 : (update_vel_and_pos s l dt).getD i default = default := by
        apply List.getD_eq_default
        rw [update_vel_and_pos_length]
        omega
      have h2 : ((combinations l.length).foldl (applyPair s) l).getD i default = default := by
        apply List.getD_eq_default
        rw [foldl_applyPair_length]
        omega
      rw [h1, h2]
      rfl

/-- Witness for C5 (amended): after one tick on a concrete single body the
accumulator equals the live velocity. -/
theorem new_velocity_carries_over_witness :
    ((update_vel_and_pos sqrt1 [b7] 1).getD 0 default).new_velocity
      = ((update_vel_and_pos sqrt1 [b7] 1).getD 0 default).velocity :=
  new_velocity_carries_over.1 sqrt1 [b7] 1 _
    (getD_mem_of_lt _ 0 (by simp [update_vel_and_pos_length]))

/-! ## C6: the dark-matter centering term (legacy engine only) -/

theorem getD_setL {α : Type} [Inhabited α] (l : List α) (i j : ℕ) (x : α) :
    (l.set i x).getD j default = if i = j ∧ i < l.length then x else l.getD j default :=
  getD_set l i j x default

namespace Legacy

theorem innerStep_length (s : ℚ → ℚ) (i : ℕ) (l : List Actor) (j : ℕ) :
    (innerStep s i l j).length = l.length := by
  simp only [innerStep]
  split
  · rfl
  · split
    · split <;> simp
    · simp

theorem innerLoop_length (s : ℚ → ℚ) (i : ℕ) (l : List Actor) :
    (innerLoop s i l).length = l.length := by
  simp only [innerLoop]
  generalize List.range l.length = ks
  induction ks generalizing l with
  | nil => rfl
  | cons k ks ih => simp only [List.foldl_cons]; rw [ih, innerStep_length]

theorem processActor_length (s : ℚ → ℚ) (dt : ℚ) (l : List Actor) (i : ℕ) :
    (processActor s dt l i).length = l.length := by
  simp only [processActor, List.length_set, innerLoop_length]

theorem foldl_processActor_length (s : ℚ → ℚ) (dt : ℚ) (ks : List ℕ) (l : List Actor) :
    (ks.foldl (processActor s dt) l).length = l.length := by
  induction ks generalizing l with
  | nil => rfl
  | cons k ks ih => simp only [List.foldl_cons]; rw [ih, processActor_length]

theorem velFrame_set (l : List Actor) (i : ℕ) (A : Actor) (v : Vec) (m : ℕ)
    (hA : ∃ u, A = { l.getD i default with velocity := u }) :
    ∃ w, (l.set i { A with velocity := v }).getD m default
      = { l.getD m default with velocity := w } := by
  obtain ⟨u, rfl⟩ := hA
  rw [getD_setL]
  split_ifs with h
  · obtain ⟨hi, _⟩ := h
    subst hi
    exact ⟨v, rfl⟩
  · exact ⟨(l.getD m default).velocity, rfl⟩

theorem velFrame_trans (l1 l2 l3 : List Actor)
    (h12 : ∀ m, ∃ w, l2.getD m default = { l1.getD m default with velocity := w })
    (h23 : ∀ m, ∃ w, l3.getD m default = { l2.getD m default with velocity := w }) (m : ℕ) :
    ∃ w, l3.getD m default = { l1.getD m default with velocity := w } := by
  obtain ⟨w1, hw1⟩ := h12 m
  obtain ⟨w2, hw2⟩ := h23 m
  rw [hw1] at hw2
  exact ⟨w2, hw2⟩

theorem collide_sets_frame (l1 : List Actor) (i j m : ℕ) (hij : i ≠ j) (vi vj : Vec) :
    ∃ w, ((l1.set i { l1.getD i default with velocity := vi }).set j
        { l1.getD j default with velocity := vj }).getD m default
      = { l1.getD m default with velocity := w } := by
  have hB : (l1.set i { l1.getD i default with velocity := vi }).getD j default
      = l1.getD j default := by
    rw [getD_setL]
    split_ifs with h
    · exact absurd h.1 hij
    · rfl
  exact velFrame_trans l1 _ _
    (fun m2 => velFrame_set l1 i _ vi m2 ⟨(l1.getD i default).velocity, rfl⟩)
    (fun m2 => velFrame_set _ j _ vj m2 ⟨(l1.getD j default).velocity, by rw [hB]⟩) m

theorem innerStep_frame (s : ℚ → ℚ) (i : ℕ) (l : List Actor) (j m : ℕ) :
    ∃ w, (innerStep s i l j).getD m default
      = { l.getD m default with velocity := w } := by
  simp only [innerStep]
  split
  · exact ⟨(l.getD m default).velocity, rfl⟩
  next hij =>
    split
    next hlt =>
      split
      · exact velFrame_trans l _ _
          (fun m2 => velFrame_set l i _ _ m2 ⟨(l.getD i default).velocity, rfl⟩)
          (fun m2 => collide_sets_frame _ i j m2 (by omega) _ _) m
      · exact velFrame_set l i _ _ m ⟨(l.getD i default).velocity, rfl⟩
    next hnlt =>
      exact velFrame_set l i _ _ m ⟨(l.getD i default).velocity, rfl⟩


theorem innerLoop_frame (s : ℚ → ℚ) (i : ℕ) (l : List Actor) (m : ℕ) :
    ∃ w, (innerLoop s i l).getD m default
      = { l.getD m default with velocity := w } := by
  simp only [innerLoop]
  generalize List.range l.length = ks
  induction ks generalizing l m with
  | nil => exact ⟨(l.getD m default).velocity, rfl⟩
  | cons k ks ih =>
      simp only [List.foldl_cons]
      exact velFrame_trans l _ _ (fun m2 => innerStep_frame s i l k m2)
        (fun m2 => ih (innerStep s i l k) m2) m

theorem innerStep_getD_lt (s : ℚ → ℚ) (i : ℕ) (l : List Actor) (j m : ℕ)
    (hm : m < i) : (innerStep s i l j).getD m default = l.getD m default := by
  simp only [innerStep]
  split
  · rfl
  next hij =>
    split
    next hlt =>
      split
      · rw [getD_setL]
        split_ifs with h1
        · exact absurd h1.1 (by omega)
        · rw [getD_setL]
          split_ifs with h2
          · exact absurd h2.1 (by omega)
          · rw [getD_setL]
            split_ifs with h3
            · exact absurd h3.1 (by omega)
            · rfl
      · rw [getD_setL]
        split_ifs with h1
        · exact absurd h1.1 (by omega)
        · rfl
    next hnlt =>
      rw [getD_setL]
      split_ifs with h1
      · exact absurd h1.1 (by omega)
      · rfl

theorem innerLoop_getD_lt (s : ℚ → ℚ) (i : ℕ) (l : List Actor) (m : ℕ)
    (hm : m < i) : (innerLoop s i l).getD m default = l.getD m default := by
  simp only [innerLoop]
  generalize List.range l.length = ks
  induction ks generalizing l with
  | nil => rfl
  | cons k ks ih =>
      simp only [List.foldl_cons]
      rw [ih, innerStep_getD_lt s i l k m hm]

theorem processActor_getD_lt (s : ℚ → ℚ) (dt : ℚ) (l : List Actor) (i m : ℕ)
    (hm : m < i) : (processActor s dt l i).getD m default = l.getD m default := by
  simp only [processActor]
  rw [getD_setL]
  split_ifs with h
  · exact absurd h.1 (by omega)
  · exact innerLoop_getD_lt s i l m hm

theorem foldl_processActor_getD_lt (s : ℚ → ℚ) (dt : ℚ) (ks : List ℕ)
    (l : List Actor) (m : ℕ) (h : ∀ k ∈ ks, m < k) :
    (ks.foldl (processActor s dt) l).getD m default = l.getD m default := by
  induction ks generalizing l with
  | nil => rfl
  | cons k ks ih =>
      simp only [List.foldl_cons]
      rw [ih _ (fun q hq => h q (by simp [hq])), processActor_getD_lt s dt l k m (h k (by simp))]

theorem processActor_pos_ne (s : ℚ → ℚ) (dt : ℚ) (l : List Actor) (k m : ℕ)
    (hmk : m ≠ k) :
    ((processActor s dt l k).getD m default).pos = (l.getD m default).pos := by
  simp only [processActor]
  rw [getD_setL]
  split_ifs with h
  · exact absurd h.1 (by omega)
  · obtain ⟨w, hw⟩ := innerLoop_frame s k l m
    rw [hw]

theorem foldl_processActor_pos_ne (s : ℚ → ℚ) (dt : ℚ) (ks : List ℕ)
    (l : List Actor) (m : ℕ) (h : ∀ k ∈ ks, k ≠ m) :
    ((ks.foldl (processActor s dt) l).getD m default).pos = (l.getD m default).pos := by
  induction ks generalizing l with
  | nil => rfl
  | cons k ks ih =>
      simp only [List.foldl_cons]
      rw [ih _ (fun q hq => h q (by simp [hq])),
        processActor_pos_ne s dt l k m (fun hemk => h k (by simp) hemk.symm)]

end Legacy

/-- Claim C6 (amended, for the legacy engine): after the full legacy update,
every body's velocity equals the velocity accumulated in its own pairwise inner
pass plus `G_DARK` times the displacement from the body's pre-tick position to
the origin. -/
theorem legacy_dark_matter_term (s : ℚ → ℚ) (l : List Legacy.Actor) (dt : ℚ)
    (i : ℕ) (hi : i < l.length) :
    ((Legacy.update_vel_and_pos s l dt).getD i default).velocity
      = ((Legacy.innerLoop s i
            ((List.range i).foldl (Legacy.processActor s dt) l)).getD i default).velocity
        + Legacy.G_DARK • vec_from_points (l.getD i default).pos (0, 0) := by
  have hsplit := List.range_add (i + 1) (l.length - (i + 1))
  rw [show i + 1 + (l.length - (i + 1)) = l.length by omega] at hsplit
  rw [Legacy.update_vel_and_pos, hsplit, List.foldl_append]
  rw [show ((List.foldl (Legacy.processActor s dt)
      (List.foldl (Legacy.processActor s dt) l (List.range (i + 1)))
      (List.map (fun x => i + 1 + x) (List.range (l.length - (i + 1))))).getD i default)
    = ((List.foldl (Legacy.processActor s dt) l (List.range (i + 1))).getD i default)
    from Legacy.foldl_processActor_getD_lt s dt _ _ i
      (by intro k hk; obtain ⟨x, _, rfl⟩ := List.mem_map.mp hk; omega)]
  rw [List.range_succ, List.foldl_append, List.foldl_cons, List.foldl_nil]
  set mid := (List.range i).foldl (Legacy.processActor s dt) l with hmid
  have hmlen : mid.length = l.length := Legacy.foldl_processActor_length s dt _ l
  have hset : (Legacy.processActor s dt mid i).getD i default
      = { (Legacy.innerLoop s i mid).getD i default with
          velocity := ((Legacy.innerLoop s i mid).getD i default).velocity
            + Legacy.G_DARK • vec_from_points
                ((Legacy.innerLoop s i mid).getD i default).pos (0, 0),
          pos := ((Legacy.innerLoop s i mid).getD i default).pos
            + dt • (((Legacy.innerLoop s i mid).getD i default).velocity
              + Legacy.G_DARK • vec_from_points
                  ((Legacy.innerLoop s i mid).getD i default).pos (0, 0)) } := by
    simp only [Legacy.processActor]
    rw [getD_setL]
    split_ifs with h
    · rfl
    · exact absurd ⟨rfl, by rw [Legacy.innerLoop_length, hmlen]; omega⟩ h
  rw [hset]
  have hpos1 : ((Legacy.innerLoop s i mid).getD i default).pos
      = (mid.getD i default).pos := by
    obtain ⟨w, hw⟩ := Legacy.innerLoop_frame s i mid i
    rw [hw]
  have hpos2 : (mid.getD i default).pos = (l.getD i default).pos := by
    rw [hmid]
    exact Legacy.foldl_processActor_pos_ne s dt _ l i
      (by intro k hk; have := List.mem_range.mp hk; omega)
  show ((Legacy.innerLoop s i mid).getD i default).velocity
      + Legacy.G_DARK • vec_from_points ((Legacy.innerLoop s i mid).getD i default).pos (0, 0) = _
  rw [hpos1, hpos2]

/-- Counterexample to C6 as stated: in the current engine (`galaxy.rs`), a
single body off the origin receives no origin-directed velocity contribution at
all — its post-tick velocity equals the accumulated pairwise velocity plus
`c •` (displacement to the origin) for no nonzero constant `c`. -/
theorem dark_matter_absent_in_galaxy_cex :
    ¬ ∃ c : ℚ, c ≠ 0 ∧
      ((update_vel_and_pos sqrt1 [cexBody] 1).getD 0 default).velocity
        = cexBody.new_velocity + c • vec_from_points cexBody.pos (0, 0) := by
  rintro ⟨c, hc, h⟩
  norm_num [update_vel_and_pos, show combinations 1 = [] from rfl, List.foldl_nil,
    commitActor, cexBody, vec_from_points, TRACE_LEN, Prod.ext_iff, Prod.smul_mk,
    smul_eq_mul, Prod.mk_add_mk, Prod.mk_sub_mk] at h
  rcases h with ⟨h1, h2⟩
  apply hc
  linarith

/-- Witness for C6 (amended): the legacy update on one concrete body applies
the dark-matter pull toward the origin. -/
theorem legacy_dark_matter_term_witness :
    ((Legacy.update_vel_and_pos sqrt1 [lA] 1).getD 0 default).velocity
      = ((Legacy.innerLoop sqrt1 0
            ((List.range 0).foldl (Legacy.processActor sqrt1 1) [lA])).getD 0
            default).velocity
        + Legacy.G_DARK • vec_from_points ([lA].getD 0 default).pos (0, 0) :=
  legacy_dark_matter_term sqrt1 [lA] 1 0 (by norm_num)

/-! ## C7 and C8: trace-buffer length and identifier uniqueness -/

theorem commit_trace_step (dt : ℚ) (a : Actor) :
    ((commitActor dt a).trace_cnt, (commitActor dt a).trace.length)
      = traceStep (a.trace_cnt, a.trace.length) := by
  simp only [commitActor, traceStep, List.length_cons]
  split_ifs with h h2
  · simp [List.length_dropLast]
  · simp
  · simp

theorem traceStep_iterate (t : ℕ) :
    traceStep^[t] (0, 0) = (t % 10, min (t / 10) (TRACE_LEN - 1)) := by
  induction t with
  | zero => simp
  | succ t ih =>
      rw [Function.iterate_succ_apply', ih]
      simp only [traceStep, TRACE_LEN]
      split_ifs with h1 h2 <;> refine Prod.ext ?_ ?_ <;> simp only <;> omega

theorem single_update (s : ℚ → ℚ) (dt : ℚ) (b : Actor) :
    update_vel_and_pos s [b] dt = [commitActor dt b] := rfl

theorem iterate_single_update (s : ℚ → ℚ) (dt : ℚ) (b : Actor) (t : ℕ) :
    (fun x => update_vel_and_pos s x dt)^[t] [b] = [(commitActor dt)^[t] b] := by
  induction t with
  | zero => rfl
  | succ t ih => rw [Function.iterate_succ_apply', Function.iterate_succ_apply', ih,
      single_update]

theorem commit_iterate_pair (dt : ℚ) (b : Actor) (t : ℕ) :
    (((commitActor dt)^[t] b).trace_cnt, ((commitActor dt)^[t] b).trace.length)
      = traceStep^[t] (b.trace_cnt, b.trace.length) := by
  induction t with
  | zero => rfl
  | succ t ih => rw [Function.iterate_succ_apply', Function.iterate_succ_apply', ← ih,
      commit_trace_step]

theorem single_body_trace_len (s : ℚ → ℚ) (dt : ℚ) (b : Actor) (t : ℕ)
    (htr : b.trace = []) (hcnt : b.trace_cnt = 0) :
    (((fun x => update_vel_and_pos s x dt)^[t] [b]).getD 0 default).trace.length
      = min (t / 10) (TRACE_LEN - 1) := by
  rw [iterate_single_update, List.getD_cons_zero]
  have h := commit_iterate_pair dt b t
  rw [htr, hcnt] at h
  simp only [List.length_nil] at h
  rw [traceStep_iterate] at h
  exact congrArg Prod.snd h

/-- Claim C7 (amended): the trace length never exceeds `TRACE_LEN - 1 = 599`
(hence never exceeds the capacity 600); eviction pops the back entry as soon as
a push brings the length to `TRACE_LEN`; and for a single moving body with a
fresh trace, after `t` ticks the length is exactly `min (t / 10) 599` — so
after `600 × 10` ticks it is `599`, not `600`. -/
theorem trace_len_bound_and_single_body_exact :
    (∀ (s : ℚ → ℚ) (l : List Actor) (dt : ℚ),
        (∀ a ∈ l, a.trace.length ≤ TRACE_LEN - 1) →
        ∀ a ∈ update_vel_and_pos s l dt, a.trace.length ≤ TRACE_LEN - 1) ∧
      (∀ (s : ℚ → ℚ) (dt : ℚ) (b : Actor) (t : ℕ), b.trace = [] → b.trace_cnt = 0 →
        (((fun x => update_vel_and_pos s x dt)^[t] [b]).getD 0 default).trace.length
          = min (t / 10) (TRACE_LEN - 1)) := by
  constructor
  · intro s l dt hl a ha
    simp only [update_vel_and_pos, List.mem_map] at ha
    obtain ⟨b, hb, rfl⟩ := ha
    obtain ⟨i, hlen, hEq⟩ := List.mem_iff_getElem.mp hb
    have hi : i < l.length := by rwa [foldl_applyPair_length] at hlen
    obtain ⟨w, hw⟩ := foldl_applyPair_frame s (combinations l.length) l i
    have hbl : b.trace = (l.getD i default).trace := by
      rw [← hEq, ← getD_eq_getElem_lt _ _ hlen, hw]
    have hbound := hl (l.getD i default) (getD_mem_of_lt l i hi)
    have h2 : (commitActor dt b).trace.length
        = (traceStep (b.trace_cnt, b.trace.length)).2 :=
      congrArg Prod.snd (commit_trace_step dt b)
    rw [h2, hbl]
    simp only [traceStep, TRACE_LEN] at hbound ⊢
    split_ifs <;> simp only <;> omega
  · exact single_body_trace_len

/-- Counterexample to C7 as stated: after `TRACE_LEN × 10 = 6000` ticks of
nonzero motion, the single body's trace length is 599, not `TRACE_LEN`. -/
theorem trace_len_after_6000_ticks_cex :
    (((fun x => update_vel_and_pos sqrt1 x 1)^[6000] [b7]).getD 0 default).trace.length
      ≠ TRACE_LEN := by
  rw [single_body_trace_len sqrt1 1 b7 6000 rfl rfl]
  norm_num [TRACE_LEN]

/-- Witness for C7 (amended): 25 ticks on the concrete moving body leave a
trace of length `min 2 599 = 2`. -/
theorem trace_len_bound_and_single_body_exact_witness :
    (((fun x => update_vel_and_pos sqrt1 x 1)^[25] [b7]).getD 0 default).trace.length
      = min (25 / 10) (TRACE_LEN - 1) :=
  trace_len_bound_and_single_body_exact.2 sqrt1 1 b7 25 rfl rfl

theorem create_suns_map_id (num : ℕ) (draws : ℕ → SunDraw) (cQ : ℚ → ℚ) (piQ : ℚ) :
    (create_suns num draws cQ piQ).map (fun a => a.id)
      = (List.range num).map (fun k => (draws k).idDraw) := by
  simp only [create_suns, List.map_map]
  rfl

/-- Claim C8 (amended): `create_suns` copies the raw random `u32` draws into
the `id` fields unchanged and performs no deduplication, so the bodies have
pairwise distinct identifiers exactly when the drawn values are pairwise
distinct; a random source that repeats a value yields duplicate identifiers. -/
theorem create_suns_ids_eq_draws (num : ℕ) (draws : ℕ → SunDraw) (cQ : ℚ → ℚ)
    (piQ : ℚ) :
    ((create_suns num draws cQ piQ).map (fun a => a.id)
        = (List.range num).map (fun k => (draws k).idDraw)) ∧
      (((List.range num).map (fun k => (draws k).idDraw)).Nodup →
        ((create_suns num draws cQ piQ).map (fun a => a.id)).Nodup) := by
  refine ⟨create_suns_map_id num draws cQ piQ, fun h => ?_⟩
  rwa [create_suns_map_id]

/-- Counterexample to C8 as stated: a random source that draws id `5` for both
suns produces two bodies with the same identifier. -/
theorem duplicate_ids_cex :
    ¬ ((create_suns 2 dupDraws cbrt1 3).map (fun a => a.id)).Nodup := by
  rw [create_suns_map_id]
  decide

/-- Witness for C8 (amended): with distinct concrete id draws 1 and 2 the two
spawned bodies have distinct identifiers. -/
theorem create_suns_ids_eq_draws_witness :
    ((create_suns 2 cexDraws cbrt1 3).map (fun a => a.id)).Nodup :=
  (create_suns_ids_eq_draws 2 cexDraws cbrt1 3).2 (by decide)
end NBody
